import Mathlib

/- Shallow embedding of the aggregation pipeline of `src/dashboard.py`:
   the per-ticker fetch wrapper, the column-by-column construction of the
   `plot_data` frame (pandas column-assignment alignment semantics), the
   headline metric tiles, and the historical-performance summary table. -/

namespace Dashboard

/-- Calendar dates, abstracted to naturals (ordered, discrete). -/
abbrev Date := ℕ

abbrev Ticker := String

/-- One ticker's fetched time series for the selected price field:
(date, value) pairs in ascending date order, dates unique. -/
abbrev TSeries := List (Date × ℚ)

/-- Float values as far as the dashboard's arithmetic can observe them: a
real number, NaN, or a signed infinity. Pandas encodes a missing cell as
NaN. -/
inductive V where
  | num : ℚ → V
  | nan : V
  | inf : V
  | ninf : V
deriving DecidableEq

/-- A pandas cell (`Option ℚ`, `none` meaning NaN/missing) read as a float. -/
def toV : Option ℚ → V
  | none => .nan
  | some q => .num q

/-- Float subtraction on the observable values (NaN propagates). -/
def vsub : V → V → V
  | .nan, _ => .nan
  | _, .nan => .nan
  | .num a, .num b => .num (a - b)
  | .inf, .inf => .nan
  | .ninf, .ninf => .nan
  | .inf, _ => .inf
  | .ninf, _ => .ninf
  | .num _, .inf => .ninf
  | .num _, .ninf => .inf

/-- Float division: NaN propagates; dividing a nonzero number by zero
gives a signed infinity, 0/0 gives NaN (numpy float64 semantics: no
exception is raised). -/
def vdiv : V → V → V
  | .nan, _ => .nan
  | _, .nan => .nan
  | .num a, .num b =>
      if b = 0 then (if 0 < a then .inf else if a < 0 then .ninf else .nan)
      else .num (a / b)
  | .num _, .inf => .num 0
  | .num _, .ninf => .num 0
  | .inf, .num b => if b < 0 then .ninf else .inf
  | .ninf, .num b => if b < 0 then .inf else .ninf
  | .inf, .inf => .nan
  | .inf, .ninf => .nan
  | .ninf, .inf => .nan
  | .ninf, .ninf => .nan

/-- Multiplication by the literal 100 used in both percent-change sites. -/
def vmul100 : V → V
  | .num a => .num (a * 100)
  | .nan => .nan
  | .inf => .inf
  | .ninf => .ninf

/-- `((current - previous) / previous) * 100`, lines 96 and 175 of
`src/dashboard.py`. -/
def pctChange (c p : V) : V := vmul100 (vdiv (vsub c p) p)

/-- The `plot_data` frame: a shared date index and one column of cells per
successfully fetched ticker, each column as long as the index. -/
structure DF where
  index : List Date
  cols : List (Ticker × List (Option ℚ))
deriving DecidableEq

def emptyDF : DF := ⟨[], []⟩

/-- Value of a series at a date, `none` when the date is absent. -/
def lookupDate (d : Date) (s : TSeries) : Option ℚ :=
  (s.find? (fun p => p.1 == d)).map Prod.snd

/-- `plot_data[stock] = stock_data[price_type]` (line 78), with pandas
column-assignment semantics: the first assignment to the empty frame
adopts the series' own index; each later assignment aligns the series to
the existing index, so dates missing from the series become NaN and dates
of the series outside the index are dropped. -/
def assignCol (df : DF) (t : Ticker) (s : TSeries) : DF :=
  if df.cols.isEmpty then
    ⟨s.map Prod.fst, [(t, s.map (fun p => some p.2))]⟩
  else
    ⟨df.index, df.cols ++ [(t, df.index.map (fun d => lookupDate d s))]⟩

/-- `fetch_single_stock_data` (lines 17 to 25): the provider call is an
oracle that either returns a series or raises; the wrapper catches any
exception, surfaces an error message, and returns `None`. -/
def fetch_single_stock_data (raw : Ticker → Date → Date → Except String TSeries)
    (t : Ticker) (s e : Date) : Option TSeries :=
  match raw t s e with
  | .ok d => some d
  | .error _ => none

/-- A fetch counts as usable when it returned a non-empty series (line 76:
`if stock_data is not None and not stock_data.empty`). -/
def goodFetch (raw : Ticker → Date → Date → Except String TSeries)
    (s e : Date) (t : Ticker) : Bool :=
  match fetch_single_stock_data raw t s e with
  | some ser => !ser.isEmpty
  | none => false

/-- The series a ticker contributed (empty when its fetch failed). -/
def theSeries (raw : Ticker → Date → Date → Except String TSeries)
    (s e : Date) (t : Ticker) : TSeries :=
  (fetch_single_stock_data raw t s e).getD []

/-- One iteration of the fetch loop body (lines 73 to 79) acting on
`plot_data`. -/
def stepDF (raw : Ticker → Date → Date → Except String TSeries)
    (s e : Date) (df : DF) (t : Ticker) : DF :=
  match fetch_single_stock_data raw t s e with
  | some ser => if ser.isEmpty then df else assignCol df t ser
  | none => df

/-- The fetch loop (lines 73 to 79): every selected ticker is fetched in
order (the attempts are recorded in the first component), and usable
results are assigned into `plot_data`. -/
def mainLoopAux (raw : Ticker → Date → Date → Except String TSeries)
    (s e : Date) : List Ticker → List Ticker → DF → List Ticker × DF
  | [], att, df => (att, df)
  | t :: rest, att, df =>
      mainLoopAux raw s e rest (att ++ [t]) (stepDF raw s e df t)

/-- Lines 67 to 79: starting from `plot_data = pd.DataFrame()`, fetch each
selected ticker and fold the usable series into the frame. The date
inputs are passed straight to the loop; no validation precedes it. -/
def mainLoop (raw : Ticker → Date → Date → Except String TSeries)
    (s e : Date) (sel : List Ticker) : List Ticker × DF :=
  mainLoopAux raw s e sel [] emptyDF

/-- The first selected ticker whose fetch returns a non-empty series,
together with that series. -/
def firstGood (raw : Ticker → Date → Date → Except String TSeries)
    (s e : Date) : List Ticker → Option (Ticker × TSeries)
  | [] => none
  | t :: rest =>
      if goodFetch raw s e t then some (t, theSeries raw s e t)
      else firstGood raw s e rest

/-- The column of the frame belonging to a ticker, when present. -/
def colOf (df : DF) (t : Ticker) : Option (List (Option ℚ)) :=
  (df.cols.find? (fun p => p.1 == t)).map Prod.snd

/-- Position of a date in the frame's index. -/
def idxOfDate : List Date → Date → Option ℕ
  | [], _ => none
  | x :: xs, d => if x = d then some 0 else (idxOfDate xs d).map (· + 1)

/-- The cell of `plot_data` at (ticker, date): `none` when the ticker or
date is absent from the frame, `some none` for a present-but-NaN cell. -/
def cellAt (df : DF) (t : Ticker) (d : Date) : Option (Option ℚ) :=
  match colOf df t, idxOfDate df.index d with
  | some col, some i => col.get? i
  | _, _ => none

/-- The headline widget drawn for one selected ticker. -/
inductive StockTile where
  | metric : V → V → StockTile
  | errorTile : StockTile
  | noData : StockTile
deriving DecidableEq

/-- Lines 92 to 111: `iloc[-1]` and `iloc[-2]` on the ticker's column; an
IndexError (fewer than two rows) is caught and shown as an error tile. -/
def tileForCol (col : List (Option ℚ)) : StockTile :=
  if col.length < 2 then .errorTile
  else
    let c := toV ((col.get? (col.length - 1)).getD none)
    let p := toV ((col.get? (col.length - 2)).getD none)
    .metric c (pctChange c p)

/-- Lines 90 to 113: the headline tile for one selected ticker. -/
def tileFor (df : DF) (t : Ticker) : StockTile :=
  (colOf df t).elim .noData tileForCol

/-- One row of the historical-performance table. -/
structure PerfRow where
  ticker : Ticker
  startP : V
  endP : V
  change : V
deriving DecidableEq

/-- Lines 173 to 182: the first and last positional rows of a kept column
and the percent change between them. -/
def perfRow (p : Ticker × List (Option ℚ)) : PerfRow :=
  let s := toV (p.2.headD none)
  let e := toV (p.2.getLastD none)
  ⟨p.1, s, e, pctChange e s⟩

/-- Lines 171 to 182: `dropna(axis=1, how='all')` keeps exactly the
columns with at least one non-NaN cell, then `iloc[0]` and `iloc[-1]`
take the first and last rows of each kept column. -/
def perfSummary (df : DF) : List PerfRow :=
  (df.cols.filter (fun p => p.2.any (fun o => o.isSome))).map perfRow

def TTL : ℕ := 3600

abbrev CacheKey := Ticker × Date × Date

structure CacheState where
  entries : List (CacheKey × (Option TSeries × ℕ))

/-- Modelled from the spec: the caching behavior of the
`@st.cache_data(ttl=3600)` decorator on `fetch_single_stock_data` is
implemented by the streamlit library, outside this repository. Following
the spec, entries are keyed by (ticker, start, end), stamped with their
creation time, and an entry older than the TTL is treated as missing and
refetched. The third component of the result counts the network calls
made by this invocation. -/
def cachedFetch (net : Ticker → Date → Date → Option TSeries) (now : ℕ)
    (c : CacheState) (t : Ticker) (s e : Date) :
    Option TSeries × CacheState × ℕ :=
  match c.entries.find? (fun p => p.1 == (t, s, e)) with
  | some entry =>
      if now - entry.2.2 ≤ TTL then (entry.2.1, c, 0)
      else
        let v := net t s e
        (v, ⟨((t, s, e), (v, now)) :: c.entries⟩, 1)
  | none =>
      let v := net t s e
      (v, ⟨((t, s, e), (v, now)) :: c.entries⟩, 1)

/-- Concrete provider oracle: ticker A has a one-date series, ticker B a
strictly larger date set (for the alignment claims). -/
def rawAB : Ticker → Date → Date → Except String TSeries :=
  fun t _ _ =>
    if t = "A" then .ok [(0, 1)]
    else if t = "B" then .ok [(0, 1), (1, 2)] else .error "unknown ticker"

/-- Concrete provider oracle: ticker B lacks the middle date of ticker A's
range, so B's aligned column is [100, NaN, 110]. -/
def rawMid : Ticker → Date → Date → Except String TSeries :=
  fun t _ _ =>
    if t = "A" then .ok [(0, 1), (1, 1), (2, 1)]
    else if t = "B" then .ok [(0, 100), (2, 110)] else .error "unknown ticker"

/-- Concrete provider oracle: ticker B lacks the first date of ticker A's
range, so B's aligned column is [NaN, 50, 60]. -/
def rawHead : Ticker → Date → Date → Except String TSeries :=
  fun t _ _ =>
    if t = "A" then .ok [(0, 100), (1, 100), (2, 100)]
    else if t = "B" then .ok [(1, 50), (2, 60)] else .error "unknown ticker"

/-- Concrete provider oracle: a single one-row series. -/
def rawOne : Ticker → Date → Date → Except String TSeries :=
  fun t _ _ => if t = "A" then .ok [(0, 100)] else .error "unknown ticker"

/-- Concrete provider oracle: first value zero (a zero denominator for the
performance percent change). -/
def rawZero : Ticker → Date → Date → Except String TSeries :=
  fun t _ _ => if t = "A" then .ok [(0, 0), (1, 5)] else .error "unknown ticker"

/-- Concrete provider oracle that always raises. -/
def rawFail : Ticker → Date → Date → Except String TSeries :=
  fun _ _ _ => .error "network down"

/-- Concrete network function for the cache claim. -/
def exNet : Ticker → Date → Date → Option TSeries := fun _ _ _ => some [(0, 1)]

/-- Concrete aligned table whose ticker B column is entirely missing. -/
def dfBMissing : DF := ⟨[0], [("A", [some 1]), ("B", [none])]⟩

/-- Concrete aligned table with two rows for one ticker. -/
def dfTwoRows : DF := ⟨[0, 1], [("A", [some 100, some 110])]⟩

-- Lemmas about the float-value arithmetic

lemma vsub_nan_left (p : V) : vsub V.nan p = V.nan := by cases p <;> rfl

lemma vdiv_nan_left (p : V) : vdiv V.nan p = V.nan := by cases p <;> rfl

lemma pctChange_nan_left (p : V) : pctChange V.nan p = V.nan := by
  rw [pctChange, vsub_nan_left, vdiv_nan_left]; rfl

lemma pctChange_num_num (a b : ℚ) (hb : b ≠ 0) :
    pctChange (V.num a) (V.num b) = V.num ((a - b) / b * 100) := by
  simp [pctChange, vsub, vdiv, vmul100, hb]

lemma pctChange_num_zero (b : ℚ) (hb : 0 < b) :
    pctChange (V.num b) (V.num 0) = V.inf := by
  simp [pctChange, vsub, vdiv, vmul100, sub_zero, hb]

-- Lemmas about one loop iteration

lemma goodFetch_elim {raw : Ticker → Date → Date → Except String TSeries}
    {s e : Date} {t : Ticker} (hg : goodFetch raw s e t = true) :
    ∃ ser, fetch_single_stock_data raw t s e = some ser ∧ ser.isEmpty = false := by
  rw [goodFetch] at hg
  cases hf : fetch_single_stock_data raw t s e with
  | none => rw [hf] at hg; cases hg
  | some ser => rw [hf] at hg; exact ⟨ser, rfl, by simpa using hg⟩

lemma goodFetch_intro {raw : Ticker → Date → Date → Except String TSeries}
    {s e : Date} {t : Ticker} {ser : TSeries}
    (hf : fetch_single_stock_data raw t s e = some ser) (hne : ser.isEmpty = false) :
    goodFetch raw s e t = true := by
  rw [goodFetch, hf]; simp [hne]

lemma stepDF_not_good {raw : Ticker → Date → Date → Except String TSeries}
    {s e : Date} {t : Ticker} (df : DF) (h : goodFetch raw s e t = false) :
    stepDF raw s e df t = df := by
  rw [stepDF]; rw [goodFetch] at h
  cases hf : fetch_single_stock_data raw t s e with
  | none => rfl
  | some ser =>
      rw [hf] at h
      simp only [Bool.not_eq_false'] at h
      simp [h]

lemma stepDF_good {raw : Ticker → Date → Date → Except String TSeries}
    {s e : Date} {t : Ticker} {ser : TSeries} (df : DF)
    (hf : fetch_single_stock_data raw t s e = some ser) (hne : ser.isEmpty = false) :
    stepDF raw s e df t = assignCol df t ser := by
  rw [stepDF, hf]; simp [hne]

lemma assignCol_cols_fst (df : DF) (t : Ticker) (s : TSeries) :
    (assignCol df t s).cols.map Prod.fst = df.cols.map Prod.fst ++ [t] := by
  cases hc : df.cols with
  | nil => simp [assignCol, hc]
  | cons p ps => simp [assignCol, hc]

-- Lemmas about the whole fetch loop

lemma mainLoopAux_fst (raw : Ticker → Date → Date → Except String TSeries)
    (s e : Date) : ∀ (l att : List Ticker) (df : DF),
    (mainLoopAux raw s e l att df).1 = att ++ l := by
  intro l
  induction l with
  | nil => intro att df; simp [mainLoopAux]
  | cons t rest ih =>
      intro att df
      rw [mainLoopAux, ih]
      simp

lemma mainLoopAux_cols_fst (raw : Ticker → Date → Date → Except String TSeries)
    (s e : Date) : ∀ (l att : List Ticker) (df : DF),
    (mainLoopAux raw s e l att df).2.cols.map Prod.fst
      = df.cols.map Prod.fst ++ l.filter (goodFetch raw s e) := by
  intro l
  induction l with
  | nil => intro att df; simp [mainLoopAux]
  | cons t rest ih =>
      intro att df
      rw [mainLoopAux, ih]
      cases hg : goodFetch raw s e t with
      | false => rw [stepDF_not_good df hg]; simp [List.filter_cons, hg]
      | true =>
          obtain ⟨ser, hf, hne⟩ := goodFetch_elim hg
          rw [stepDF_good df hf hne, assignCol_cols_fst]
          simp [List.filter_cons, hg]

lemma mainLoopAux_of_ne (raw : Ticker → Date → Date → Except String TSeries)
    (s e : Date) : ∀ (l att : List Ticker) (df : DF), df.cols ≠ [] →
    (mainLoopAux raw s e l att df).2
      = ⟨df.index, df.cols ++ (l.filter (goodFetch raw s e)).map
          (fun t => (t, df.index.map (fun d => lookupDate d (theSeries raw s e t))))⟩ := by
  intro l
  induction l with
  | nil => intro att df hdf; simp [mainLoopAux]
  | cons t rest ih =>
      intro att df hdf
      rw [mainLoopAux]
      cases hg : goodFetch raw s e t with
      | false =>
          rw [stepDF_not_good df hg, ih _ df hdf]
          simp [List.filter_cons, hg]
      | true =>
          obtain ⟨ser, hf, hne⟩ := goodFetch_elim hg
          have hcols : df.cols.isEmpty = false := by
            cases hc : df.cols with
            | nil => exact absurd hc hdf
            | cons p ps => rfl
          have hassign : assignCol df t ser
              = ⟨df.index, df.cols ++ [(t, df.index.map (fun d => lookupDate d ser))]⟩ := by
            simp [assignCol, hcols]
          have hts : theSeries raw s e t = ser := by rw [theSeries, hf]; rfl
          rw [stepDF_good df hf hne, hassign, ih _ _ (by simp)]
          simp [List.filter_cons, hg, hts, List.append_assoc]

lemma firstGood_split (raw : Ticker → Date → Date → Except String TSeries)
    (s e : Date) : ∀ (l : List Ticker) (t0 : Ticker) (s0 : TSeries),
    firstGood raw s e l = some (t0, s0) →
    ∃ l1 l2, l = l1 ++ t0 :: l2 ∧ (∀ u ∈ l1, goodFetch raw s e u = false) ∧
      fetch_single_stock_data raw t0 s e = some s0 ∧ s0.isEmpty = false := by
  intro l
  induction l with
  | nil => intro t0 s0 h; cases h
  | cons t rest ih =>
      intro t0 s0 h
      rw [firstGood] at h
      by_cases hg : goodFetch raw s e t = true
      · rw [if_pos hg] at h
        simp only [Option.some.injEq, Prod.mk.injEq] at h
        obtain ⟨rfl, rfl⟩ := h
        obtain ⟨ser, hf, hne⟩ := goodFetch_elim hg
        have hts : theSeries raw s e t = ser := by rw [theSeries, hf]; rfl
        refine ⟨[], rest, rfl, ?_, ?_, ?_⟩
        · intro u hu; cases hu
        · rw [hts]; exact hf
        · rw [hts]; exact hne
      · rw [if_neg hg] at h
        obtain ⟨l1, l2, h1, h2, h3, h4⟩ := ih t0 s0 h
        refine ⟨t :: l1, l2, by rw [h1]; rfl, ?_, h3, h4⟩
        intro u hu
        rcases List.mem_cons.mp hu with rfl | hu2
        · simpa using hg
        · exact h2 u hu2

lemma mainLoop_skip_bad (raw : Ticker → Date → Date → Except String TSeries)
    (s e : Date) : ∀ (l1 r att : List Ticker) (df : DF),
    (∀ u ∈ l1, goodFetch raw s e u = false) →
    mainLoopAux raw s e (l1 ++ r) att df = mainLoopAux raw s e r (att ++ l1) df := by
  intro l1
  induction l1 with
  | nil => intro r att df h; simp
  | cons u us ih =>
      intro r att df h
      rw [List.cons_append, mainLoopAux, stepDF_not_good df (h u (by simp))]
      rw [ih r (att ++ [u]) df (fun v hv => h v (by simp [hv]))]
      rw [List.append_assoc]
      rfl

lemma mainLoop_char (raw : Ticker → Date → Date → Except String TSeries)
    (s e : Date) (sel : List Ticker) (t0 : Ticker) (s0 : TSeries)
    (h : firstGood raw s e sel = some (t0, s0)) :
    ∃ l2 : List Ticker, (∀ u, u ∈ sel → u ≠ t0 → goodFetch raw s e u = true → u ∈ l2) ∧
      (mainLoop raw s e sel).2
        = ⟨s0.map Prod.fst,
           (t0, s0.map (fun p => some p.2))
             :: (l2.filter (goodFetch raw s e)).map
               (fun t => (t, (s0.map Prod.fst).map
                 (fun d => lookupDate d (theSeries raw s e t))))⟩ := by
  obtain ⟨l1, l2, hsel, hbad, hf0, hne0⟩ := firstGood_split raw s e sel t0 s0 h
  refine ⟨l2, ?_, ?_⟩
  · intro u hu hut hg
    rw [hsel] at hu
    rcases List.mem_append.mp hu with h1 | h2
    · exact absurd hg (by simp [hbad u h1])
    · rcases List.mem_cons.mp h2 with rfl | h3
      · exact absurd rfl hut
      · exact h3
  · rw [mainLoop, hsel, mainLoop_skip_bad raw s e l1 _ _ _ hbad]
    rw [mainLoopAux, stepDF_good _ hf0 hne0]
    have hassign : assignCol emptyDF t0 s0
        = ⟨s0.map Prod.fst, [(t0, s0.map (fun p => some p.2))]⟩ := by
      simp [assignCol, emptyDF]
    rw [hassign, mainLoopAux_of_ne raw s e l2 _ _ (by simp)]
    simp

-- Lemmas about cell observation

lemma find?_map_mk (g : Ticker → List (Option ℚ)) :
    ∀ (L : List Ticker) (t : Ticker), t ∈ L →
    (L.map (fun x => (x, g x))).find? (fun p => p.1 == t) = some (t, g t) := by
  intro L
  induction L with
  | nil => intro t h; cases h
  | cons x xs ih =>
      intro t ht
      by_cases hx : x = t
      · subst hx
        rw [List.map_cons, List.find?_cons_of_pos _ (by simp)]
      · rw [List.map_cons, List.find?_cons_of_neg _ (by simp [hx])]
        refine ih t ?_
        rcases List.mem_cons.mp ht with rfl | h2
        · exact absurd rfl hx
        · exact h2

lemma idxOfDate_mem : ∀ (L : List Date) (d : Date), d ∈ L →
    ∃ i, idxOfDate L d = some i := by
  intro L
  induction L with
  | nil => intro d h; cases h
  | cons x xs ih =>
      intro d h
      by_cases hx : x = d
      · exact ⟨0, by rw [idxOfDate, if_pos hx]⟩
      · have hd : d ∈ xs := by
          rcases List.mem_cons.mp h with h2 | h2
          · exact absurd h2.symm hx
          · exact h2
        obtain ⟨i, hi⟩ := ih d hd
        exact ⟨i + 1, by rw [idxOfDate, if_neg hx, hi]; rfl⟩

lemma idxOfDate_map_get (g : Date → Option ℚ) : ∀ (L : List Date) (d : Date) (i : ℕ),
    idxOfDate L d = some i → (L.map g).get? i = some (g d) := by
  intro L
  induction L with
  | nil => intro d i h; cases h
  | cons x xs ih =>
      intro d i h
      rw [idxOfDate] at h
      by_cases hx : x = d
      · rw [if_pos hx] at h
        simp only [Option.some.injEq] at h
        subst h
        rw [List.map_cons, hx]
        rfl
      · rw [if_neg hx] at h
        cases hj : idxOfDate xs d with
        | none => rw [hj] at h; cases h
        | some j =>
            rw [hj] at h
            simp only [Option.map_some', Option.some.injEq] at h
            subst h
            rw [List.map_cons, List.get?_cons_succ]
            exact ih d j hj

lemma lookupDate_eq_none : ∀ (s : TSeries) (d : Date), d ∉ s.map Prod.fst →
    lookupDate d s = none := by
  intro s
  induction s with
  | nil => intro d h; rfl
  | cons p ps ih =>
      intro d h
      have h1 : ¬ p.1 = d := by intro hh; exact h (by simp [hh])
      have h2 : d ∉ ps.map Prod.fst := fun hh => h (by simp [hh])
      rw [lookupDate, List.find?_cons_of_neg _ (by simp [h1])]
      exact ih d h2

lemma find?_map_col (g : Ticker → List (Option ℚ)) (L : List Ticker) (t : Ticker)
    (ht : t ∈ L) :
    ((L.map (fun x => (x, g x))).find? (fun p => p.1 == t)).map Prod.snd
      = some (g t) := by
  rw [find?_map_mk g L t ht]
  rfl

-- Claim theorems

/-- C1, counterexample: the aligned table's date set is not the union of
the input dates. With ticker A contributing only date 0 and ticker B
contributing dates 0 and 1, date 1 lies in the union (it is in B's fetched
series) yet is absent from the aligned table's index. -/
theorem c1_union_counterexample :
    ((1 : Date) ∈ ((fetch_single_stock_data rawAB "B" 0 9).getD []).map Prod.fst) ∧
    (mainLoop rawAB 0 9 ["A", "B"]).2.index = [0] ∧
    (1 : Date) ∉ (mainLoop rawAB 0 9 ["A", "B"]).2.index := by decide

/-- C1, amended: whenever some selected ticker's fetch succeeds with a
non-empty series, the aligned table's date set equals the date set of the
FIRST such ticker's series (not the union), and the table never contains
a date absent from every input series. -/
theorem c1_aligned_dates_amended (raw : Ticker → Date → Date → Except String TSeries)
    (s e : Date) (sel : List Ticker) (t0 : Ticker) (s0 : TSeries)
    (h : firstGood raw s e sel = some (t0, s0)) :
    (mainLoop raw s e sel).2.index = s0.map Prod.fst ∧
    ∀ d ∈ (mainLoop raw s e sel).2.index,
      ∃ t, t ∈ sel ∧ ∃ ser, fetch_single_stock_data raw t s e = some ser ∧
        d ∈ ser.map Prod.fst := by
  obtain ⟨l2, hmem, hdf⟩ := mainLoop_char raw s e sel t0 s0 h
  have hidx : (mainLoop raw s e sel).2.index = s0.map Prod.fst := by rw [hdf]
  refine ⟨hidx, ?_⟩
  intro d hd
  rw [hidx] at hd
  obtain ⟨l1, l2b, hsel, hbad, hf0, hne0⟩ := firstGood_split raw s e sel t0 s0 h
  exact ⟨t0, by rw [hsel]; exact List.mem_append.mpr (Or.inr (List.mem_cons_self t0 l2b)),
    s0, hf0, hd⟩

/-- C1 witness: the amended claim at the concrete two-ticker input. -/
theorem c1_aligned_dates_witness :
    (mainLoop rawAB 0 9 ["A", "B"]).2.index = ([(0, 1)] : TSeries).map Prod.fst ∧
    ∀ d ∈ (mainLoop rawAB 0 9 ["A", "B"]).2.index,
      ∃ t, t ∈ (["A", "B"] : List Ticker) ∧ ∃ ser,
        fetch_single_stock_data rawAB t 0 9 = some ser ∧ d ∈ ser.map Prod.fst :=
  c1_aligned_dates_amended rawAB 0 9 ["A", "B"] "A" [(0, 1)] (by decide)

/-- C10: whenever at least one selected ticker's fetch succeeds with a
non-empty series, the aligned table's date set equals the date set of the
first successfully fetched ticker in selection order; a date absent from
that first series never appears in the table (so a date present only in a
later ticker's series is dropped); and for each retained date, a later
successfully fetched ticker lacking that date holds the missing marker in
its cell. -/
theorem c10_first_ticker_alignment (raw : Ticker → Date → Date → Except String TSeries)
    (s e : Date) (sel : List Ticker) (t0 : Ticker) (s0 : TSeries)
    (h : firstGood raw s e sel = some (t0, s0)) :
    (mainLoop raw s e sel).2.index = s0.map Prod.fst ∧
    (∀ d, d ∉ s0.map Prod.fst → d ∉ (mainLoop raw s e sel).2.index) ∧
    (∀ t ser, t ∈ sel → t ≠ t0 → fetch_single_stock_data raw t s e = some ser →
      ser.isEmpty = false → ∀ d ∈ (mainLoop raw s e sel).2.index,
        d ∉ ser.map Prod.fst → cellAt (mainLoop raw s e sel).2 t d = some none) := by
  obtain ⟨l2, hmem, hdf⟩ := mainLoop_char raw s e sel t0 s0 h
  have hidx : (mainLoop raw s e sel).2.index = s0.map Prod.fst := by rw [hdf]
  refine ⟨hidx, ?_, ?_⟩
  · intro d hd
    rw [hidx]
    exact hd
  · intro t ser ht hnt hf hne d hd hdn
    have hg : goodFetch raw s e t = true := goodFetch_intro hf hne
    have htl2 : t ∈ l2.filter (goodFetch raw s e) :=
      List.mem_filter.mpr ⟨hmem t ht hnt hg, hg⟩
    have hts : theSeries raw s e t = ser := by rw [theSeries, hf]; rfl
    have hcols2 : (mainLoop raw s e sel).2.cols
        = (t0, s0.map (fun p => some p.2))
          :: (l2.filter (goodFetch raw s e)).map
            (fun tt => (tt, (s0.map Prod.fst).map
              (fun dd => lookupDate dd (theSeries raw s e tt)))) := by
      rw [hdf]
    have hcol : colOf (mainLoop raw s e sel).2 t
        = some ((s0.map Prod.fst).map (fun dd => lookupDate dd (theSeries raw s e t))) := by
      rw [colOf, hcols2, List.find?_cons_of_neg _ (by simp [Ne.symm hnt])]
      exact find?_map_col _ _ t htl2
    rw [hidx] at hd
    obtain ⟨i, hi⟩ := idxOfDate_mem (s0.map Prod.fst) d hd
    have hi2 : idxOfDate (mainLoop raw s e sel).2.index d = some i := by
      rw [hidx]
      exact hi
    unfold cellAt
    rw [hcol, hi2]
    show ((s0.map Prod.fst).map (fun dd => lookupDate dd (theSeries raw s e t))).get? i
      = some none
    rw [idxOfDate_map_get (fun dd => lookupDate dd (theSeries raw s e t))
      (s0.map Prod.fst) d i hi]
    rw [hts, lookupDate_eq_none ser d hdn]

/-- C10 witness: the claim at the concrete input where ticker B lacks the
middle date of first ticker A's range. -/
theorem c10_first_ticker_alignment_witness :
    (mainLoop rawMid 0 9 ["A", "B"]).2.index
      = ([(0, 1), (1, 1), (2, 1)] : TSeries).map Prod.fst ∧
    (∀ d, d ∉ ([(0, 1), (1, 1), (2, 1)] : TSeries).map Prod.fst →
      d ∉ (mainLoop rawMid 0 9 ["A", "B"]).2.index) ∧
    (∀ t ser, t ∈ (["A", "B"] : List Ticker) → t ≠ "A" →
      fetch_single_stock_data rawMid t 0 9 = some ser → ser.isEmpty = false →
      ∀ d ∈ (mainLoop rawMid 0 9 ["A", "B"]).2.index, d ∉ ser.map Prod.fst →
        cellAt (mainLoop rawMid 0 9 ["A", "B"]).2 t d = some none) :=
  c10_first_ticker_alignment rawMid 0 9 ["A", "B"] "A" [(0, 1), (1, 1), (2, 1)] (by decide)

/-- C4, counterexample: with start date 5 after end date 3, the fetch loop
still attempts a fetch for the selected ticker; nothing is rejected before
fetching. -/
theorem c4_invalid_range_counterexample :
    (3 : Date) < 5 ∧ (mainLoop rawFail 5 3 ["AAPL"]).1 = ["AAPL"] ∧
    (mainLoop rawFail 5 3 ["AAPL"]).1 ≠ [] := by decide

/-- C4, amended: the code performs no start/end validation. Even when the
start date is strictly after the end date, a fetch is attempted for every
selected ticker. -/
theorem c4_fetch_attempted_amended (raw : Ticker → Date → Date → Except String TSeries)
    (s e : Date) (sel : List Ticker) (_h : e < s) :
    (mainLoop raw s e sel).1 = sel := by
  rw [mainLoop, mainLoopAux_fst]
  rfl

/-- C4 witness: the amended claim at a concrete inverted date range. -/
theorem c4_fetch_attempted_witness :
    (mainLoop rawFail 5 3 ["AAPL"]).1 = ["AAPL"] :=
  c4_fetch_attempted_amended rawFail 5 3 ["AAPL"] (by decide)

/-- C8: a fetch failure for one ticker never aborts the batch. For every
provider oracle (including ones that raise for some tickers), every
selected ticker is fetched, and the aligned table's columns are exactly
the tickers whose fetch returned a non-empty series, in selection order;
in particular every usable ticker is folded into the table. -/
theorem c8_batch_isolation (raw : Ticker → Date → Date → Except String TSeries)
    (s e : Date) (sel : List Ticker) :
    (mainLoop raw s e sel).1 = sel ∧
    (mainLoop raw s e sel).2.cols.map Prod.fst = sel.filter (goodFetch raw s e) ∧
    ∀ t ∈ sel, goodFetch raw s e t = true →
      t ∈ (mainLoop raw s e sel).2.cols.map Prod.fst := by
  have h1 : (mainLoop raw s e sel).1 = sel := by
    rw [mainLoop, mainLoopAux_fst]
    rfl
  have h2 : (mainLoop raw s e sel).2.cols.map Prod.fst
      = sel.filter (goodFetch raw s e) := by
    rw [mainLoop, mainLoopAux_cols_fst]
    simp [emptyDF]
  refine ⟨h1, h2, ?_⟩
  intro t ht hg
  rw [h2]
  exact List.mem_filter.mpr ⟨ht, hg⟩

/-- C9 (cache modelled from the spec): starting from a cache with no entry
for the key, two fetches of the same (ticker, start, end) within the TTL
window issue at most one network call in total and return identical
results. -/
theorem c9_cache_ttl (net : Ticker → Date → Date → Option TSeries)
    (t : Ticker) (s e : Date) (t1 t2 : ℕ) (c : CacheState)
    (h0 : c.entries.find? (fun p => p.1 == (t, s, e)) = none)
    (h2 : t2 - t1 ≤ TTL) :
    (cachedFetch net t1 c t s e).2.2
      + (cachedFetch net t2 (cachedFetch net t1 c t s e).2.1 t s e).2.2 ≤ 1 ∧
    (cachedFetch net t2 (cachedFetch net t1 c t s e).2.1 t s e).1
      = (cachedFetch net t1 c t s e).1 := by
  have h1 : cachedFetch net t1 c t s e
      = (net t s e, ⟨((t, s, e), (net t s e, t1)) :: c.entries⟩, 1) := by
    unfold cachedFetch
    rw [h0]
  have hfind : ((⟨((t, s, e), (net t s e, t1)) :: c.entries⟩ : CacheState)).entries.find?
      (fun p => p.1 == (t, s, e)) = some ((t, s, e), (net t s e, t1)) := by
    show (((t, s, e), (net t s e, t1)) :: c.entries).find? (fun p => p.1 == (t, s, e)) = _
    rw [List.find?_cons_of_pos _ (by simp)]
  have h3 : cachedFetch net t2 (⟨((t, s, e), (net t s e, t1)) :: c.entries⟩ : CacheState) t s e
      = (net t s e, ⟨((t, s, e), (net t s e, t1)) :: c.entries⟩, 0) := by
    unfold cachedFetch
    rw [hfind]
    simp [h2]
  rw [h1, h3]
  exact ⟨by norm_num, rfl⟩

/-- C2, counterexample: ticker B's aligned column is [100, NaN, 110]; its
last two non-missing values in date order are 100 and 110, so the claim
predicts a headline percent change of 10. The code instead uses the last
two positional rows (110 and NaN) and reports NaN. -/
theorem c2_pct_counterexample :
    tileFor (mainLoop rawMid 0 9 ["A", "B"]).2 "B" = .metric (V.num 110) V.nan ∧
    V.nan ≠ V.num 10 := by decide

/-- C2, amended: the headline percent change is computed from the last two
POSITIONAL rows of the ticker's column (`iloc[-1]` and `iloc[-2]`), not
the last two non-missing values. When both of those rows hold values and
the second-to-last is nonzero, the tile shows
`(latest_row - previous_row) / previous_row * 100`. -/
theorem c2_last_rows_amended (df : DF) (t : Ticker) (col : List (Option ℚ)) (a b : ℚ)
    (h : colOf df t = some col) (h2 : 2 ≤ col.length)
    (hlast : col.get? (col.length - 1) = some (some a))
    (hprev : col.get? (col.length - 2) = some (some b)) (hb : b ≠ 0) :
    tileFor df t = .metric (V.num a) (V.num ((a - b) / b * 100)) := by
  unfold tileFor
  rw [h]
  show tileForCol col = _
  unfold tileForCol
  rw [if_neg (by omega), hlast, hprev]
  simp [toV, pctChange_num_num a b hb]

/-- C2 witness: the amended claim at a concrete two-row column. -/
theorem c2_last_rows_witness :
    tileFor dfTwoRows "A" = .metric (V.num 110) (V.num ((110 - 100) / 100 * 100)) :=
  c2_last_rows_amended dfTwoRows "A" [some 100, some 110] 110 100
    (by decide) (by decide) (by decide) (by decide) (by decide)

/-- C3, counterexample: ticker B's aligned column is [NaN, 50, 60]; the
claim predicts that the summary reports B's first non-missing value 50
(and change 20). The code instead reports the first positional row, NaN,
and a NaN change. -/
theorem c3_summary_counterexample :
    (perfSummary (mainLoop rawHead 0 9 ["A", "B"]).2).get? 1
      = some ⟨"B", V.nan, V.num 60, V.nan⟩ ∧
    V.nan ≠ V.num 50 := by decide

/-- C3, amended: for each kept ticker the summary reports the FIRST and
LAST positional rows of its column (NaN when those rows are missing) and
the percent change between them; this coincides with the claim exactly
when the first and last rows are non-missing. -/
theorem c3_first_last_row_amended (df : DF) (t : Ticker) (col : List (Option ℚ))
    (a b : ℚ) (hmem : (t, col) ∈ df.cols) (ha : col.headD none = some a)
    (hb2 : col.getLastD none = some b) (h0 : a ≠ 0) :
    (⟨t, V.num a, V.num b, V.num ((b - a) / a * 100)⟩ : PerfRow) ∈ perfSummary df := by
  have hany : col.any (fun o => o.isSome) = true := by
    cases hc : col with
    | nil => rw [hc] at ha; cases ha
    | cons x xs =>
        rw [hc] at ha
        have hx : x = some a := ha
        simp [hx]
  have hrow : perfRow (t, col) = ⟨t, V.num a, V.num b, V.num ((b - a) / a * 100)⟩ := by
    show (⟨t, toV (col.headD none), toV (col.getLastD none),
      pctChange (toV (col.getLastD none)) (toV (col.headD none))⟩ : PerfRow) = _
    rw [ha, hb2]
    show (⟨t, V.num a, V.num b, pctChange (V.num b) (V.num a)⟩ : PerfRow) = _
    rw [pctChange_num_num b a h0]
  exact List.mem_map.mpr ⟨(t, col), List.mem_filter.mpr ⟨hmem, hany⟩, hrow⟩

/-- C3 witness: the amended claim at a concrete two-row column. -/
theorem c3_summary_witness :
    (⟨"A", V.num 100, V.num 110, V.num ((110 - 100) / 100 * 100)⟩ : PerfRow)
      ∈ perfSummary dfTwoRows :=
  c3_first_last_row_amended dfTwoRows "A" [some 100, some 110] 100 110
    (by decide) (by decide) (by decide) (by decide)

/-- C5, counterexample: with a zero first value, the summary row for the
ticker is still reported, carrying change = plus-infinity; the cell is not
omitted from the metric output as the claim states. -/
theorem c5_zero_denominator_counterexample :
    perfSummary (mainLoop rawZero 0 9 ["A"]).2 = [⟨"A", V.num 0, V.num 5, V.inf⟩] ∧
    perfSummary (mainLoop rawZero 0 9 ["A"]).2 ≠ [] := by
  have hdf : (mainLoop rawZero 0 9 ["A"]).2 = ⟨[0, 1], [("A", [some 0, some 5])]⟩ := by
    decide
  have h1 : perfSummary (mainLoop rawZero 0 9 ["A"]).2
      = [⟨"A", V.num 0, V.num 5, V.inf⟩] := by
    rw [hdf, perfSummary]
    norm_num [List.filter, perfRow, toV, pctChange, vsub, vdiv, vmul100]
  refine ⟨h1, ?_⟩
  rw [h1]
  simp

/-- C5, amended: the percent-change arithmetic never raises (it is total
in the model, mirroring numpy float64), but a zero denominator does NOT
cause the cell to be omitted: the summary still reports the ticker's row,
with a plus-infinity change when the final value is positive (and the
value zero is never fabricated for it). -/
theorem c5_zero_denominator_amended (df : DF) (t : Ticker) (col : List (Option ℚ))
    (b : ℚ) (hmem : (t, col) ∈ df.cols) (ha : col.headD none = some 0)
    (hb2 : col.getLastD none = some b) (hb : 0 < b) :
    (⟨t, V.num 0, V.num b, V.inf⟩ : PerfRow) ∈ perfSummary df := by
  have hany : col.any (fun o => o.isSome) = true := by
    cases hc : col with
    | nil => rw [hc] at ha; cases ha
    | cons x xs =>
        rw [hc] at ha
        have hx : x = some 0 := ha
        simp [hx]
  have hrow : perfRow (t, col) = ⟨t, V.num 0, V.num b, V.inf⟩ := by
    show (⟨t, toV (col.headD none), toV (col.getLastD none),
      pctChange (toV (col.getLastD none)) (toV (col.headD none))⟩ : PerfRow) = _
    rw [ha, hb2]
    show (⟨t, V.num 0, V.num b, pctChange (V.num b) (V.num 0)⟩ : PerfRow) = _
    rw [pctChange_num_zero b hb]
  exact List.mem_map.mpr ⟨(t, col), List.mem_filter.mpr ⟨hmem, hany⟩, hrow⟩

/-- C5 witness: the amended claim at the concrete zero-denominator column. -/
theorem c5_zero_denominator_witness :
    (⟨"A", V.num 0, V.num 5, V.inf⟩ : PerfRow)
      ∈ perfSummary (⟨[0, 1], [("A", [some 0, some 5])]⟩ : DF) :=
  c5_zero_denominator_amended ⟨[0, 1], [("A", [some 0, some 5])]⟩ "A"
    [some 0, some 5] 5 (by decide) (by decide) (by decide) (by decide)

/-- C6, counterexample: a ticker with a single data point gets an error
tile (the IndexError from `iloc[-2]` is caught and rendered as an error
badge), not a metric tile with an undefined percent change shown as N/A. -/
theorem c6_undefined_counterexample :
    tileFor (mainLoop rawOne 0 9 ["A"]).2 "A" = .errorTile ∧
    ¬ ∃ pr, tileFor (mainLoop rawOne 0 9 ["A"]).2 "A" = StockTile.metric pr V.nan := by
  have h : tileFor (mainLoop rawOne 0 9 ["A"]).2 "A" = .errorTile := by decide
  refine ⟨h, ?_⟩
  rintro ⟨pr, hpr⟩
  rw [h] at hpr
  exact StockTile.noConfusion hpr

/-- C6, amended: computing the headline metrics never raises an uncaught
error, but the display is not "N/A": a ticker whose column has fewer than
two rows is shown as an error badge, and a ticker whose last row is
missing is shown as a metric tile whose price and percent change are both
NaN. -/
theorem c6_few_values_amended (df : DF) (t : Ticker) (col : List (Option ℚ))
    (h : colOf df t = some col) :
    (col.length < 2 → tileFor df t = .errorTile) ∧
    (2 ≤ col.length → col.get? (col.length - 1) = some none →
      tileFor df t = .metric V.nan V.nan) := by
  constructor
  · intro hlen
    unfold tileFor
    rw [h]
    show tileForCol col = _
    unfold tileForCol
    rw [if_pos hlen]
  · intro hlen hlast
    unfold tileFor
    rw [h]
    show tileForCol col = _
    unfold tileForCol
    rw [if_neg (by omega), hlast]
    simp [toV, pctChange_nan_left]

/-- C6 witness: the amended claim at the concrete one-row column. -/
theorem c6_few_values_witness :
    tileFor (mainLoop rawOne 0 9 ["A"]).2 "A" = .errorTile :=
  (c6_few_values_amended (mainLoop rawOne 0 9 ["A"]).2 "A" [some 100]
    (by decide)).1 (by decide)

/-- C7: a ticker all of whose cells are missing is omitted entirely from
the performance summary: no summary row carries its name. -/
theorem c7_all_missing_omitted (df : DF) (t : Ticker)
    (h : ∀ p ∈ df.cols, p.1 = t → p.2.any (fun o => o.isSome) = false) :
    ∀ r ∈ perfSummary df, r.ticker ≠ t := by
  intro r hr
  rw [perfSummary] at hr
  obtain ⟨p, hp, hpr⟩ := List.mem_map.mp hr
  obtain ⟨hpm, hpf⟩ := List.mem_filter.mp hp
  intro hrt
  have hp1 : p.1 = t := by
    rw [← hpr] at hrt
    exact hrt
  have h2 := h p hpm hp1
  rw [h2] at hpf
  exact Bool.noConfusion hpf

/-- C7 witness: the claim at a concrete table whose ticker B column is all
missing; the only summary row belongs to ticker A. -/
theorem c7_all_missing_omitted_witness :
    (perfRow ("A", [some 1])).ticker ≠ "B" :=
  c7_all_missing_omitted dfBMissing "B" (by decide) (perfRow ("A", [some 1]))
    (by show perfRow ("A", [some 1]) ∈ [perfRow ("A", [some 1])]
        exact List.mem_singleton_self _)

/-- C9 witness: the claim at a concrete net function, empty cache and the
times 0 and 10. -/
theorem c9_cache_ttl_witness :
    (cachedFetch exNet 0 (⟨[]⟩ : CacheState) "A" 1 2).2.2
      + (cachedFetch exNet 10 (cachedFetch exNet 0 (⟨[]⟩ : CacheState) "A" 1 2).2.1
          "A" 1 2).2.2 ≤ 1 ∧
    (cachedFetch exNet 10 (cachedFetch exNet 0 (⟨[]⟩ : CacheState) "A" 1 2).2.1
        "A" 1 2).1
      = (cachedFetch exNet 0 (⟨[]⟩ : CacheState) "A" 1 2).1 :=
  c9_cache_ttl exNet "A" 1 2 0 10 ⟨[]⟩ rfl (by decide)

end Dashboard
